import Mathlib

/-!
# cbnu-notice: verification of the spec against a shallow embedding

Shallow embedding of the `cbnu-notice` crawler (Rust) in Lean 4.

Conventions used throughout:
* Rust `String`/`&str` values are modelled as Lean `String` (for stored
  fields) or `List Char` (inside the text algorithms); a `List Char` is the
  sequence of Unicode scalar values of the Rust string, and byte positions
  are recovered through the UTF-8 size of each scalar.  UTF-8 is
  self-synchronising, so `str::find` on bytes coincides with searching for
  the needle's scalar sequence at scalar boundaries.
* Fallible Rust operations that can `panic` (the byte-slice
  `&title[start..pos]`, which aborts when `start` is not a character
  boundary) are modelled with `Option`: `none` is the panic.
* `chrono::NaiveDate::from_ymd_opt` is modelled by `fromYmd?`
  (month/day/leap-year validity; chrono's extreme ±262143-year bound is not
  modelled — every year in scope is a 4-digit year or a plausible clock
  year).
* Rust `to_lowercase`/`trim` are modelled with ASCII case mapping and an
  ASCII whitespace set; every keyword involved in the claims is Korean
  (caseless) or already lower-case ASCII, and code- and spec-side
  definitions share the same mapping.
-/

namespace CbnuNotice

/-- UTF-8 encoded size in bytes of one Unicode scalar value
(matches Rust `char::len_utf8`). -/
def utf8Len (c : Char) : Nat :=
  if c.toNat < 0x80 then 1
  else if c.toNat < 0x800 then 2
  else if c.toNat < 0x10000 then 3
  else 4

/-- Byte length of a string given as its scalar sequence
(matches Rust `str::len`). -/
def byteLen (l : List Char) : Nat :=
  l.foldr (fun c n => utf8Len c + n) 0

/-- ASCII case mapping for one scalar (see the header note on
`to_lowercase`). -/
def lowerChar (c : Char) : Char :=
  if 'A' ≤ c ∧ c ≤ 'Z' then Char.ofNat (c.toNat + 32) else c

/-- Lower-case a scalar sequence. -/
def lowerL (l : List Char) : List Char := l.map lowerChar

/-- Whitespace test used to model `str::trim` and the regex class `\s`
(ASCII whitespace; the titles in scope use only `' '`). -/
def isWsChar (c : Char) : Bool :=
  c = ' ' ∨ c = '\t' ∨ c = '\n' ∨ c = '\r'

/-- `str::trim`: strip whitespace from both ends. -/
def trimL (l : List Char) : List Char :=
  ((l.dropWhile isWsChar).reverse.dropWhile isWsChar).reverse

/-- `str::trim` on `String`. -/
def trimS (s : String) : String := String.mk (trimL s.data)

/-- Contiguous-substring test (Rust `str::contains(&str)`). -/
def containsSub (hay needle : List Char) : Bool :=
  match hay with
  | [] => needle.isEmpty
  | _ :: rest => needle.isPrefixOf hay || containsSub rest needle

/-- Rust `str::find(&str)`: byte index of the first occurrence of `needle`
in `hay`, `none` if absent. -/
def findSubByte (hay needle : List Char) : Option Nat :=
  match hay with
  | [] => if needle.isEmpty then some 0 else none
  | c :: rest =>
    if needle.isPrefixOf hay then some 0
    else (findSubByte rest needle).map (utf8Len c + ·)

/-- Character index (in scalars) of the first occurrence of `needle`
in `hay`. -/
def findSubChar (hay needle : List Char) : Option Nat :=
  match hay with
  | [] => if needle.isEmpty then some 0 else none
  | _ :: rest =>
    if needle.isPrefixOf hay then some 0
    else (findSubChar rest needle).map (· + 1)

/-- Take exactly `n` bytes off the front of a scalar sequence; `none` when
`n` is not a character boundary (a Rust byte-slice whose end falls inside
a scalar aborts the process). -/
def takeBytes : List Char → Nat → Option (List Char)
  | _, 0 => some []
  | [], _ + 1 => none
  | c :: rest, n + 1 =>
    if utf8Len c ≤ n + 1 then (takeBytes rest (n + 1 - utf8Len c)).map (c :: ·)
    else none

/-- Drop exactly `n` bytes off the front; `none` when `n` is not a
character boundary. -/
def dropBytes : List Char → Nat → Option (List Char)
  | l, 0 => some l
  | [], _ + 1 => none
  | c :: rest, n + 1 =>
    if utf8Len c ≤ n + 1 then dropBytes rest (n + 1 - utf8Len c)
    else none

/-- The Rust byte slice `&s[start..stop]`: `none` models the
byte-index-not-a-char-boundary abort. -/
def sliceBytes (l : List Char) (start stop : Nat) : Option (List Char) :=
  (takeBytes l stop).bind (fun t => dropBytes t start)

/-! ## Calendar dates (`chrono::NaiveDate`) -/

/-- A calendar date as produced by `chrono::NaiveDate::from_ymd_opt`. -/
structure NDate where
  year : Int
  month : Nat
  day : Nat
deriving DecidableEq, Repr

/-- Proleptic Gregorian leap year (chrono's rule). -/
def isLeapYear (y : Int) : Bool :=
  y % 4 = 0 ∧ (y % 100 ≠ 0 ∨ y % 400 = 0)

/-- Days in a month of a given year. -/
def daysInMonth (y : Int) (m : Nat) : Nat :=
  if m = 2 then (if isLeapYear y then 29 else 28)
  else if m = 4 ∨ m = 6 ∨ m = 9 ∨ m = 11 then 30
  else 31

/-- `NaiveDate::from_ymd_opt`: `some` exactly on valid calendar dates. -/
def fromYmd? (y : Int) (m d : Nat) : Option NDate :=
  if 1 ≤ m ∧ m ≤ 12 ∧ 1 ≤ d ∧ d ≤ daysInMonth y m then some ⟨y, m, d⟩
  else none

/-! ## The two date-token grammars of `deadline.rs`

`re_full = (\d{4})[dot dash slash](\d{1,2})[dot dash slash](\d{1,2})` and
`re_md = (\d{1,2})[.월]\s?(\d{1,2})[.일]?`, with the `regex` crate's
leftmost-first semantics: scan start positions left to right, quantifiers
greedy with backtracking.  Matchers return the captured numbers together
with the byte-free length (in scalars) of the whole match, which is what
`captures_iter` needs to continue after a match. -/

def isDigitChar (c : Char) : Bool := '0' ≤ c ∧ c ≤ '9'

def digitVal (c : Char) : Nat := c.toNat - '0'.toNat

/-- Separator class `[dot dash slash]` of the full-date grammar. -/
def isSepFull (c : Char) : Bool := c = '.' ∨ c = '-' ∨ c = '/'

/-- `(\d{1,2})` with nothing mandatory after it: greedy, so two digits when
available, else one.  Returns the value and the number of scalars consumed
including an optional trailing `[.일]` marker. -/
def matchDayTail (l : List Char) : Option (Nat × Nat) :=
  match l with
  | a :: b :: rest =>
    if isDigitChar a then
      if isDigitChar b then
        some (10 * digitVal a + digitVal b,
          2 + (match rest with
               | m :: _ => if m = '.' ∨ m = '일' then 1 else 0
               | [] => 0))
      else some (digitVal a, 1 + (if b = '.' ∨ b = '일' then 1 else 0))
    else none
  | [a] => if isDigitChar a then some (digitVal a, 1) else none
  | [] => none

/-- Day part of the full grammar: `(\d{1,2})` greedy, no trailing marker. -/
def matchDayFull (l : List Char) : Option (Nat × Nat) :=
  match l with
  | a :: b :: _ =>
    if isDigitChar a then
      if isDigitChar b then some (10 * digitVal a + digitVal b, 2)
      else some (digitVal a, 1)
    else none
  | [a] => if isDigitChar a then some (digitVal a, 1) else none
  | [] => none

/-- `(\d{1,2})[dot dash slash](\d{1,2})` — month/day tail of the full grammar, with
backtracking from the greedy two-digit month to one digit. -/
def matchMonthDayFull (l : List Char) : Option (Nat × Nat × Nat) :=
  (match l with
   | a :: b :: s :: rest =>
     if isDigitChar a ∧ isDigitChar b ∧ isSepFull s then
       (matchDayFull rest).map
         (fun p => (10 * digitVal a + digitVal b, p.1, 3 + p.2))
     else none
   | _ => none)
  <|>
  (match l with
   | a :: s :: rest =>
     if isDigitChar a ∧ isSepFull s then
       (matchDayFull rest).map (fun p => (digitVal a, p.1, 2 + p.2))
     else none
   | _ => none)

/-- Try `re_full` anchored at the head of `l`: returns
`(year, month, day, match length in scalars)`. -/
def matchFullAt (l : List Char) : Option (Nat × Nat × Nat × Nat) :=
  match l with
  | a :: b :: c :: d :: s :: rest =>
    if isDigitChar a ∧ isDigitChar b ∧ isDigitChar c ∧ isDigitChar d ∧
        isSepFull s then
      (matchMonthDayFull rest).map (fun p =>
        (1000 * digitVal a + 100 * digitVal b + 10 * digitVal c + digitVal d,
         p.1, p.2.1, 5 + p.2.2))
    else none
  | _ => none

/-- Leftmost `re_full` match: `Regex::captures`, captures only. -/
def findFull : List Char → Option (Nat × Nat × Nat)
  | [] => none
  | c :: rest =>
    match matchFullAt (c :: rest) with
    | some (y, m, d, _) => some (y, m, d)
    | none => findFull rest

/-- Try `re_md` anchored at the head of `l`: returns
`(month, day, match length in scalars)`. -/
def matchMdAt (l : List Char) : Option (Nat × Nat × Nat) :=
  -- after the month separator: `\s?(\d{1,2})[.일]?`, `\s?` greedy
  let afterSep : List Char → Option (Nat × Nat) := fun l =>
    (match l with
     | w :: rest =>
       if isWsChar w then (matchDayTail rest).map (fun p => (p.1, p.2 + 1))
       else none
     | [] => none)
    <|> matchDayTail l
  (match l with
   | a :: b :: s :: rest =>
     if isDigitChar a ∧ isDigitChar b ∧ (s = '.' ∨ s = '월') then
       (afterSep rest).map
         (fun p => (10 * digitVal a + digitVal b, p.1, 3 + p.2))
     else none
   | _ => none)
  <|>
  (match l with
   | a :: s :: rest =>
     if isDigitChar a ∧ (s = '.' ∨ s = '월') then
       (afterSep rest).map (fun p => (digitVal a, p.1, 2 + p.2))
     else none
   | _ => none)

/-- Leftmost `re_md` match, captures only. -/
def findMd : List Char → Option (Nat × Nat)
  | [] => none
  | c :: rest =>
    match matchMdAt (c :: rest) with
    | some (m, d, _) => some (m, d)
    | none => findMd rest

/-- `parse_ymd` of `deadline.rs` (the captures are digit strings, so the
integer parses cannot fail). -/
def parse_ymd (y m d : Nat) : Option NDate := fromYmd? (Int.ofNat y) m d

/-- `parse_md` of `deadline.rs`. -/
def parse_md (year : Int) (m d : Nat) : Option NDate := fromYmd? year m d

/-- `re_full.captures_iter` fold: keep the last match whose captures parse
to a valid date.  `fuel` bounds the scan (instantiated with the list
length; each step consumes at least one scalar). -/
def iterFullLast : Nat → List Char → Option NDate → Option NDate
  | 0, _, acc => acc
  | _ + 1, [], acc => acc
  | fuel + 1, c :: rest, acc =>
    match matchFullAt (c :: rest) with
    | some (y, m, d, len) =>
      iterFullLast fuel ((c :: rest).drop len)
        (match parse_ymd y m d with
         | some nd => some nd
         | none => acc)
    | none => iterFullLast fuel rest acc

/-- `re_md.captures_iter` fold, last valid date. -/
def iterMdLast (year : Int) : Nat → List Char → Option NDate → Option NDate
  | 0, _, acc => acc
  | _ + 1, [], acc => acc
  | fuel + 1, c :: rest, acc =>
    match matchMdAt (c :: rest) with
    | some (m, d, len) =>
      iterMdLast year fuel ((c :: rest).drop len)
        (match parse_md year m d with
         | some nd => some nd
         | none => acc)
    | none => iterMdLast year fuel rest acc

/-! ## `extract_deadline` -/

/-- The deadline-signalling keywords, in source order. -/
def deadlineKeywords : List (List Char) :=
  ["까지".data, "마감".data, "이내".data]

/-- One keyword-window probe: leftmost full-grammar match parsed first,
then leftmost bare month-day match (exactly the two `if let` blocks of
`deadline.rs`). -/
def windowDate (year : Int) (region : List Char) : Option NDate :=
  (match findFull region with
   | some (y, m, d) => parse_ymd y m d
   | none => none)
  <|>
  (match findMd region with
   | some (m, d) => parse_md year m d
   | none => none)

/-- The keyword loop of `extract_deadline`.  Result:
`none` = the byte slice aborted (start not on a character boundary);
`some (some d)` = an early `return Some(d)`;
`some none` = the loop fell through to the whole-title fallback. -/
def kwLoop (title : List Char) (year : Int) :
    List (List Char) → Option (Option NDate)
  | [] => some none
  | kw :: kws =>
    match findSubByte title kw with
    | none => kwLoop title year kws
    | some pos =>
      match sliceBytes title (pos - 40) pos with
      | none => none
      | some region =>
        match windowDate year region with
        | some d => some (some d)
        | none => kwLoop title year kws

/-- Whole-title fallback: last valid full-grammar date, else last valid
bare month-day date. -/
def fallbackLast (title : List Char) (year : Int) : Option NDate :=
  match iterFullLast title.length title none with
  | some d => some d
  | none => iterMdLast year title.length title none

/-- `extract_deadline` of `deadline.rs`.  The current local year
(`Local::now().format("%Y")…unwrap_or(2026)`) is passed explicitly as
`year`; the outer `Option` is `none` exactly when the Rust code aborts on
the 40-byte window slice. -/
def extract_deadline (title : List Char) (year : Int) :
    Option (Option NDate) :=
  match kwLoop title year deadlineKeywords with
  | none => none
  | some (some d) => some (some d)
  | some none => some (fallbackLast title year)

/-! ### Spec-side readings of the extractor -/

/-- The spec's "40-character window immediately preceding the keyword":
the last (up to) 40 scalars before character position `pos`. -/
def charWindow (title : List Char) (pos : Nat) : List Char :=
  (title.take pos).drop (pos - 40)

/-- Keyword scan following the spec's words with a 40-**character**
window (total: character windows always fall on character boundaries). -/
def kwLoopSpecChar (title : List Char) (year : Int) :
    List (List Char) → Option NDate
  | [] => none
  | kw :: kws =>
    match findSubChar title kw with
    | none => kwLoopSpecChar title year kws
    | some pos =>
      match windowDate year (charWindow title pos) with
      | some d => some d
      | none => kwLoopSpecChar title year kws

/-- `extract_deadline` as the spec's sentence describes it: keyword scan
over a 40-character window, then the rightmost-date fallback. -/
def extract_deadline_spec (title : List Char) (year : Int) : Option NDate :=
  match kwLoopSpecChar title year deadlineKeywords with
  | some d => some d
  | none => fallbackLast title year

/-- One keyword's contribution, spec-side (byte window): `none` if the
byte slice aborts, `some none` if this keyword yields no date, and
`some (some d)` for a window date. -/
def specKwProbe (title : List Char) (year : Int) (kw : List Char) :
    Option (Option NDate) :=
  match findSubByte title kw with
  | none => some none
  | some pos =>
    match sliceBytes title (pos - 40) pos with
    | none => none
    | some region => some (windowDate year region)

/-- Spec-side scan over the keywords in source order, the first keyword
window that yields a date winning, aborts propagating. -/
def specScan (title : List Char) (year : Int) :
    List (List Char) → Option (Option NDate)
  | [] => some none
  | kw :: kws =>
    match specKwProbe title year kw with
    | none => none
    | some (some d) => some (some d)
    | some none => specScan title year kws

/-- The amended spec reading of `extract_deadline`: identical to the
spec's sentence except that the window preceding a keyword spans 40
**bytes** (aborting when that offset splits a scalar), factored into a
per-keyword probe. -/
def extract_deadline_specBytes (title : List Char) (year : Int) :
    Option (Option NDate) :=
  match specScan title year deadlineKeywords with
  | none => none
  | some (some d) => some (some d)
  | some none => some (fallbackLast title year)

/-- A reading of the local wall clock (`chrono::Local::now()`), with just
enough structure to talk about which components the extractor reads. -/
structure LocalTime where
  year : Int
  month : Nat
  day : Nat
  hour : Nat
  minute : Nat
  second : Nat
deriving DecidableEq

/-- `extract_deadline` as actually called: the reference year is the year
component of the current local time
(`Local::now().format("%Y")` parsed, `unwrap_or(2026)`; a four-digit year
always reparses, so the fallback constant never fires for real clocks). -/
def extract_deadline_at (title : List Char) (now : LocalTime) :
    Option (Option NDate) :=
  extract_deadline title now.year

/-! ## `category.rs`: the classifier -/

inductive Category where
  | academic
  | scholarship
  | recruit
  | contest
  | event
  | general
deriving DecidableEq, Repr

/-- The ordered rule table of `Category::classify`, verbatim from
`category.rs` (keyword sets and priority order). -/
def classifyRules : List (List String × Category) :=
  [ (["수강", "학점", "성적", "졸업", "휴학", "복학", "전과", "재입학",
      "수업", "학사일정", "교육과정", "이수", "학기", "편입", "등록금 납부",
      "학위"], .academic),
    (["장학", "학자금", "등록금 감면", "국가장학", "교내장학", "근로장학"],
      .scholarship),
    (["채용", "인사", "공무직", "계약직", "교원", "조교", "강사 채용",
      "직원", "합격자", "경쟁채용"], .recruit),
    (["모집", "공모", "선발", "신청 안내", "접수", "지원자", "참가자",
      "대회", "공모전"], .contest),
    (["특강", "세미나", "워크숍", "설명회", "포럼", "행사", "축제", "공연",
      "전시", "초청"], .event) ]

/-- Does rule `r` fire on the lower-cased title `t`?  (`keywords.iter()
.any(|k| t.contains(k))`). -/
def ruleFires (t : List Char) (r : List String × Category) : Bool :=
  r.1.any (fun k => containsSub t k.data)

/-- The rule loop of `Category::classify`. -/
def classifyGo (t : List Char) : List (List String × Category) → Category
  | [] => .general
  | r :: rest => if ruleFires t r then r.2 else classifyGo t rest

/-- `Category::classify`: lower-case the title, return the category of the
first rule with a substring match, defaulting to `general`. -/
def classify (title : String) : Category :=
  classifyGo (lowerL title.data) classifyRules

/-- `Category::as_str`: the tag stored in the notices table. -/
def categoryTag : Category → String
  | .academic => "academic"
  | .scholarship => "scholarship"
  | .recruit => "recruit"
  | .contest => "contest"
  | .event => "event"
  | .general => "general"

/-! ## `db.rs`: the SQLite store

Each table is a list of rows in insertion order; the `UNIQUE` constraints
are enforced by the operations themselves (`INSERT OR IGNORE` /
`ON CONFLICT`), exactly as the SQL statements do.  `AUTOINCREMENT`
surrogate ids are drawn from an explicit `nextId` counter.  `datetime`
values are the strings the code writes (`now_sqlite()` output is passed in
as a parameter). -/

/-- A parser's output row (`parser::RawNotice`). -/
structure RawNotice where
  notice_id : String
  title : String
  url : String
  author : Option String
  date : Option String
  category : Option String
  is_pinned : Bool
deriving DecidableEq, Repr

/-- A row of the `notices` table. -/
structure NoticeRow where
  id : Nat
  source_key : String
  notice_id : String
  title : String
  url : String
  author : Option String
  category : String
  published : Option String
  deadline : Option String
  crawled_at : String
  notified : Bool
deriving DecidableEq, Repr

/-- A row of the `crawl_state` table. -/
structure CrawlStateRow where
  source_key : String
  last_crawled : Option String
  last_notice_id : Option String
  error_count : Nat
deriving DecidableEq, Repr

/-- A row of the `users` table. -/
structure UserRow where
  telegram_id : Int
  username : Option String
  first_name : Option String
  is_active : Bool
deriving DecidableEq, Repr

/-- A row of the `keyword_subs` table (the surrogate id plays no role in
the claims; uniqueness is on the pair). -/
structure KeywordSubRow where
  telegram_id : Int
  keyword : String
deriving DecidableEq, Repr

/-- A row of the `source_subs` table. -/
structure SourceSubRow where
  telegram_id : Int
  source_key : String
deriving DecidableEq, Repr

/-- A row of the `dm_log` table. -/
structure DmLogRow where
  notice_id : Nat
  telegram_id : Int
  match_type : String
  match_value : Option String
deriving DecidableEq, Repr

/-- The whole persistent store. -/
structure DbState where
  notices : List NoticeRow
  nextId : Nat
  crawlState : List CrawlStateRow
  users : List UserRow
  keywordSubs : List KeywordSubRow
  sourceSubs : List SourceSubRow
  dmLog : List DmLogRow
deriving DecidableEq, Repr

/-- The empty store right after `Database::init`. -/
def DbState.empty : DbState := ⟨[], 1, [], [], [], [], []⟩

/-- Does a notice with this dedup key exist?  (the `UNIQUE(source_key,
notice_id)` probe behind `INSERT OR IGNORE`). -/
def hasNotice (db : DbState) (sk nid : String) : Bool :=
  db.notices.any (fun r => r.source_key = sk ∧ r.notice_id = nid)

/-- The `INSERT … ON CONFLICT(source_key) DO NOTHING` that
`insert_if_new` always performs on `crawl_state`. -/
def seedCrawl (cs : List CrawlStateRow) (key now : String) :
    List CrawlStateRow :=
  if cs.any (fun r => r.source_key = key) then cs
  else cs ++ [⟨key, some now, none, 0⟩]

/-- `Database::insert_if_new`: `INSERT OR IGNORE` into `notices` with the
category fixed by the classifier, plus the `ON CONFLICT DO NOTHING` seed
of `crawl_state`.  Returns whether the row was newly created.  (`now` is
the `now_sqlite()` timestamp; the unused `display_name` argument of the
Rust function is dropped.) -/
def insert_if_new (db : DbState) (source_key : String) (n : RawNotice)
    (now : String) : Bool × DbState :=
  if hasNotice db source_key n.notice_id then
    (false, { db with crawlState := seedCrawl db.crawlState source_key now })
  else
    (true,
     { db with
        notices := db.notices ++
          [⟨db.nextId, source_key, n.notice_id, n.title, n.url, n.author,
            categoryTag (classify n.title), n.date, none, now, false⟩],
        nextId := db.nextId + 1,
        crawlState := seedCrawl db.crawlState source_key now })

/-- The `error_count` currently recorded for a source (`0` when the
`crawl_state` row is absent, matching the column default). -/
def errCount (db : DbState) (key : String) : Nat :=
  match db.crawlState.find? (fun r => r.source_key = key) with
  | none => 0
  | some r => r.error_count

/-- `Database::update_crawl_state`: upsert that stamps the crawl time,
keeps the old watermark when `last_id` is `NULL` (`COALESCE`), and resets
the error counter to zero. -/
def update_crawl_state (db : DbState) (key : String)
    (last_id : Option String) (now : String) : DbState :=
  if db.crawlState.any (fun r => r.source_key = key) then
    { db with crawlState := db.crawlState.map (fun r =>
        if r.source_key = key then
          { r with last_crawled := some now,
                   last_notice_id := last_id.orElse (fun _ => r.last_notice_id),
                   error_count := 0 }
        else r) }
  else
    { db with crawlState := db.crawlState ++ [⟨key, some now, last_id, 0⟩] }

/-- `Database::increment_error`: upsert adding one to the counter
(inserting at `1` when absent), then read the new count back. -/
def increment_error (db : DbState) (key : String) (now : String) :
    Nat × DbState :=
  match db.crawlState.find? (fun r => r.source_key = key) with
  | none =>
    (1, { db with crawlState := db.crawlState ++ [⟨key, some now, none, 1⟩] })
  | some r =>
    (r.error_count + 1,
     { db with crawlState := db.crawlState.map (fun s =>
         if s.source_key = key then
           { s with last_crawled := some now,
                    error_count := s.error_count + 1 }
         else s) })

/-- `Database::get_source_subscribers`: active subscribers of a source
(the SQL join returns an unordered set; the model determinises it to the
table order). -/
def get_source_subscribers (db : DbState) (key : String) : List Int :=
  (db.sourceSubs.filter (fun s =>
      s.source_key = key ∧
      db.users.any (fun u => u.telegram_id = s.telegram_id ∧ u.is_active))
    ).map (fun s => s.telegram_id)

/-- `Database::get_all_keyword_subs`: `(telegram_id, keyword)` pairs for
active users only. -/
def get_all_keyword_subs (db : DbState) : List (Int × String) :=
  (db.keywordSubs.filter (fun k =>
      db.users.any (fun u => u.telegram_id = k.telegram_id ∧ u.is_active))
    ).map (fun k => (k.telegram_id, k.keyword))

/-- `Database::is_dm_sent`: does a delivery-log row exist for the pair? -/
def is_dm_sent (db : DbState) (notice_db_id : Nat) (telegram_id : Int) :
    Bool :=
  db.dmLog.any (fun r =>
    r.notice_id = notice_db_id ∧ r.telegram_id = telegram_id)

/-- `Database::log_dm`: `INSERT OR IGNORE` keyed on
`(notice_id, telegram_id)`. -/
def log_dm (db : DbState) (notice_db_id : Nat) (telegram_id : Int)
    (match_type : String) (match_value : Option String) : DbState :=
  if is_dm_sent db notice_db_id telegram_id then db
  else
    { db with dmLog := db.dmLog ++
        [⟨notice_db_id, telegram_id, match_type, match_value⟩] }

/-- `Database::deactivate_user`: one-way active-flag flip. -/
def deactivate_user (db : DbState) (telegram_id : Int) : DbState :=
  { db with users := db.users.map (fun u =>
      if u.telegram_id = telegram_id then { u with is_active := false }
      else u) }

/-! ## `dm_engine.rs`: matching and direct delivery

The Telegram transport is the environment: a pure oracle
`send : telegram_id → notice db id → SendResult` stands for
`DmEngine::send_dm`, and the engine's side effect of invoking it is
recorded in an `attempts` trace (one entry per `send_dm` call, in call
order). -/

/-- Outcome of one `send_dm` call: success, a transient error, or the
`Forbidden` error meaning the recipient blocked the bot. -/
inductive SendResult where
  | ok
  | errTransient
  | errForbidden
deriving DecidableEq, Repr

/-- `dm_engine::DmMatch`. -/
structure DmMatch where
  telegram_id : Int
  match_type : String
  match_value : String
deriving DecidableEq, Repr

/-- Keyword pass of `DmEngine::find_matches`: scan the
`(telegram_id, keyword)` pairs in order, push a `"keyword"` match for
each user whose lower-cased keyword is a substring of the lower-cased
title and who enters the `seen_users` set for the first time.  Returns
the final seen set and the pushed matches. -/
def kwPhase (tl : List Char) :
    List (Int × String) → List Int → List Int × List DmMatch
  | [], seen => (seen, [])
  | (uid, kw) :: rest, seen =>
    if containsSub tl (lowerL kw.data) then
      if uid ∈ seen then kwPhase tl rest seen
      else
        let p := kwPhase tl rest (uid :: seen)
        (p.1, ⟨uid, "keyword", kw⟩ :: p.2)
    else kwPhase tl rest seen

/-- Source pass of `DmEngine::find_matches`: push a `"source"` match for
each subscriber not already seen. -/
def srcPhase (skey : String) :
    List Int → List Int → List Int × List DmMatch
  | [], seen => (seen, [])
  | uid :: rest, seen =>
    if uid ∈ seen then srcPhase skey rest seen
    else
      let p := srcPhase skey rest (uid :: seen)
      (p.1, ⟨uid, "source", skey⟩ :: p.2)

/-- `DmEngine::find_matches`: keyword matches first, then source
subscribers, deduplicated through the shared seen set. -/
def find_matches (db : DbState) (notice : NoticeRow)
    (kwSubs : List (Int × String)) : List DmMatch :=
  let tl := lowerL notice.title.data
  let p1 := kwPhase tl kwSubs []
  let p2 := srcPhase notice.source_key
    (get_source_subscribers db notice.source_key) p1.1
  p1.2 ++ p2.2

/-- Result of a `DmEngine::process` run: the store after the cycle, the
count of successful deliveries, and the trace of `send_dm` calls. -/
structure ProcResult where
  db : DbState
  sent : Nat
  attempts : List (Nat × Int)
deriving DecidableEq, Repr

/-- Inner loop of `DmEngine::process` over one notice's matches: skip
when a delivery-log row exists, otherwise attempt delivery; log on
success, deactivate the user on a `Forbidden` failure. -/
def processMatches (send : Int → Nat → SendResult) (notice : NoticeRow) :
    List DmMatch → DbState → Nat → List (Nat × Int) → ProcResult
  | [], db, sent, att => ⟨db, sent, att⟩
  | m :: ms, db, sent, att =>
    if is_dm_sent db notice.id m.telegram_id then
      processMatches send notice ms db sent att
    else
      match send m.telegram_id notice.id with
      | .ok =>
        processMatches send notice ms
          (log_dm db notice.id m.telegram_id m.match_type
            (some m.match_value))
          (sent + 1) (att ++ [(notice.id, m.telegram_id)])
      | .errTransient =>
        processMatches send notice ms db sent
          (att ++ [(notice.id, m.telegram_id)])
      | .errForbidden =>
        processMatches send notice ms (deactivate_user db m.telegram_id)
          sent (att ++ [(notice.id, m.telegram_id)])

/-- Outer loop of `DmEngine::process` over the recent notices.  The
keyword-subscription table is the one loaded once at the start of the
cycle; source subscribers are re-read per notice from the evolving
store, as in the code. -/
def processNotices (send : Int → Nat → SendResult)
    (kwSubs : List (Int × String)) :
    List NoticeRow → DbState → Nat → List (Nat × Int) → ProcResult
  | [], db, sent, att => ⟨db, sent, att⟩
  | n :: ns, db, sent, att =>
    let r := processMatches send n (find_matches db n kwSubs) db sent att
    processNotices send kwSubs ns r.db r.sent r.attempts

/-- `DmEngine::process`: the recent-window query (`get_recent_for_dm`,
a wall-clock `datetime` filter) is abstracted as the given list of
already-broadcast notices. -/
def dmProcess (db : DbState) (send : Int → Nat → SendResult)
    (notices : List NoticeRow) : ProcResult :=
  processNotices send (get_all_keyword_subs db) notices db 0 []

/-! ## `main.rs`: the per-source crawl step and alert escalation -/

/-- Terminal outcome of `fetch_with_retry` for one source in one cycle:
the parsed notices, or a failure after the retry budget. -/
inductive CrawlOutcome where
  | success (notices : List RawNotice)
  | failure
deriving DecidableEq, Repr

/-- The per-source match arm of `do_crawl`: on success insert every
notice, record the first notice's id as the watermark and reset the error
counter; on failure increment the counter and emit the operator alert
when the new count is at least 5 and a notifier is configured.  Returns
the store and whether the alert was sent this cycle. -/
def do_crawl_source (db : DbState) (key : String) (now : String)
    (notifierPresent : Bool) : CrawlOutcome → DbState × Bool
  | .success ns =>
    let db1 := ns.foldl (fun d n => (insert_if_new d key n now).2) db
    (update_crawl_state db1 key (ns.head?.map (fun n => n.notice_id)) now,
     false)
  | .failure =>
    let p := increment_error db key now
    (p.2, notifierPresent && decide (5 ≤ p.1))

/-- Run a sequence of crawl cycles for one source, collecting the alert
flag of each cycle. -/
def runCycles (key : String) (now : String) (notifierPresent : Bool) :
    DbState → List CrawlOutcome → DbState × List Bool
  | db, [] => (db, [])
  | db, o :: os =>
    let p := do_crawl_source db key now notifierPresent o
    let q := runCycles key now notifierPresent p.1 os
    (q.1, p.2 :: q.2)

/-- Pure counter-level description of the alert behaviour: a failure
bumps the consecutive-error count and alerts whenever the new count has
reached the threshold 5; a success resets the count. -/
def errAlerts (notifierPresent : Bool) : Nat → List CrawlOutcome → List Bool
  | _, [] => []
  | _, .success _ :: os => false :: errAlerts notifierPresent 0 os
  | c, .failure :: os =>
    (notifierPresent && decide (5 ≤ c + 1)) ::
      errAlerts notifierPresent (c + 1) os

/-! ## `parser/egov.rs` and `parser/xe_board.rs`

The `scraper` HTML engine is the environment: a parsed document is
abstracted as an oracle `doc : String → List HtmlRow` giving, for each
CSS selector string, the rows it matches in document order, where an
`HtmlRow` carries exactly the data the two `parse_html` functions read
from a row (its `td` cells with their classes, texts and contained links,
and the row's `a[href]` elements in document order).  Everything from the
row model onwards is translated from the source. -/

/-- An `a[href]` element: its `href` attribute and its collected text. -/
structure RowLink where
  href : String
  text : String
deriving DecidableEq, Repr

/-- A `td` cell: its classes, collected text, and contained `a[href]`
elements in document order. -/
structure Cell where
  classes : List String
  text : String
  links : List RowLink
deriving DecidableEq, Repr

/-- One row matched by a table selector. -/
structure HtmlRow where
  cells : List Cell
  links : List RowLink
deriving DecidableEq, Repr

/-- Maximal leading digit run. -/
def digitsPrefix (l : List Char) : List Char := l.takeWhile isDigitChar

/-- The regex `nttNo=(\d+)`: leftmost occurrence of the literal followed
by at least one digit, capturing the maximal digit run. -/
def findNttNo : List Char → Option String
  | [] => none
  | c :: rest =>
    if "nttNo=".data.isPrefixOf (c :: rest) then
      let ds := digitsPrefix ((c :: rest).drop 6)
      if ds.isEmpty then findNttNo rest else some (String.mk ds)
    else findNttNo rest

/-- The regex `/(\d+)(?:\?|#|$)`: a slash, a maximal digit run, then a
query or fragment delimiter or the end of the string. -/
def findSrl : List Char → Option String
  | [] => none
  | c :: rest =>
    if c = '/' then
      let ds := digitsPrefix rest
      if ds.isEmpty then findSrl rest
      else
        match rest.drop ds.length with
        | [] => some (String.mk ds)
        | x :: _ =>
          if x = '?' ∨ x = '#' then some (String.mk ds) else findSrl rest
    else findSrl rest

/-- The regex `document_srl=(\d+)`. -/
def findDocSrl : List Char → Option String
  | [] => none
  | c :: rest =>
    if "document_srl=".data.isPrefixOf (c :: rest) then
      let ds := digitsPrefix ((c :: rest).drop 13)
      if ds.isEmpty then findDocSrl rest else some (String.mk ds)
    else findDocSrl rest

/-- `str::replace` (all occurrences); fuel-structured on the haystack
length, the needle being non-empty in every use. -/
def replaceAllAux (needle repl : List Char) :
    Nat → List Char → List Char
  | _, [] => []
  | 0, l => l
  | fuel + 1, c :: rest =>
    if needle.isPrefixOf (c :: rest) ∧ ¬ needle.isEmpty then
      repl ++ replaceAllAux needle repl fuel ((c :: rest).drop needle.length)
    else c :: replaceAllAux needle repl fuel rest

/-- `str::replace` on `String`. -/
def replaceAll (s needle repl : String) : String :=
  String.mk (replaceAllAux needle.data repl.data s.data.length s.data)

/-- `parser/egov.rs` parser configuration. -/
structure EgovParser where
  source_key : String
  display_name : String
  base_url : String
  bbs_no : String
  key : String
  page_unit : String
deriving DecidableEq, Repr

/-- `EgovParser::build_view_url`. -/
def EgovParser.build_view_url (p : EgovParser) (ntt_no : String) : String :=
  replaceAll p.base_url "selectBbsNttList.do" "selectBbsNttView.do"
    ++ "?bbsNo=" ++ p.bbs_no ++ "&key=" ++ p.key ++ "&nttNo=" ++ ntt_no

/-- Text of the `i`-th cell (guarded uses only). -/
def cellText (cells : List Cell) (i : Nat) : String :=
  (cells.getD i ⟨[], "", []⟩).text

/-- Body of the egov per-row loop: `none` exactly when the row is
silently skipped (too few cells, no link, no `nttNo`, empty title). -/
def egovProcessRow (p : EgovParser) (row : HtmlRow) : Option RawNotice :=
  let cells := row.cells
  if cells.length < 4 then none
  else
    match row.links.head? with
    | none => none
    | some link =>
      match findNttNo link.href.data with
      | none => none
      | some nid =>
        let title := trimS link.text
        if title = "" then none
        else
          let url := p.build_view_url nid
          let is_pinned := containsSub (cellText cells 0).data "공지".data
          let fields : Option String × Option String × Option String :=
            if 6 ≤ cells.length then
              let cat := trimS (cellText cells 1)
              let aut := trimS (cellText cells 3)
              let dat := trimS (cellText cells 4)
              (if cat = "" then none else some cat,
               if aut = "" then none else some aut,
               if dat = "" then none else some dat)
            else if 5 ≤ cells.length then
              let aut := trimS (cellText cells 2)
              let dat := trimS (cellText cells 3)
              (none,
               if aut = "" then none else some aut,
               if dat = "" then none else some dat)
            else (none, none, none)
          some ⟨nid, title, url, fields.2.1, fields.2.2, fields.1,
                is_pinned⟩

/-- `parser/xe_board.rs` parser configuration (`base_url` is already
trimmed of a trailing slash, as in `from_config`). -/
structure XeBoardParser where
  source_key : String
  display_name : String
  base_url : String
  mid : String
deriving DecidableEq, Repr

/-- `XeBoardParser::build_view_url`. -/
def XeBoardParser.build_view_url (p : XeBoardParser)
    (document_srl : String) : String :=
  p.base_url ++ "/" ++ p.mid ++ "/" ++ document_srl

/-- Does a cell carry a given class? -/
def hasClass (cls : String) (c : Cell) : Bool := c.classes.contains cls

/-- Body of the XE per-row loop. -/
def xeProcessRow (p : XeBoardParser) (row : HtmlRow) : Option RawNotice :=
  let cells := row.cells
  if cells.length < 3 then none
  else
    match cells.find? (hasClass "title") with
    | none => none
    | some title_cell =>
      match title_cell.links.head? with
      | none => none
      | some link =>
        match (findSrl link.href.data).orElse
            (fun _ => findDocSrl link.href.data) with
        | none => none
        | some nid =>
          let title := trimS link.text
          if title = "" then none
          else
            let url := p.build_view_url nid
            let is_pinned :=
              match cells.find? (hasClass "no") with
              | some c => containsSub c.text.data "공지".data
              | none => false
            let author :=
              ((cells.find? (hasClass "author")).map
                (fun c => trimS c.text)).filter (fun t => ¬ t = "")
            let date :=
              ((cells.find? (hasClass "time")).map
                (fun c => trimS c.text)).filter (fun t => ¬ t = "")
            some ⟨nid, title, url, author, date, none, is_pinned⟩

/-- The ordered selector candidates of `EgovParser::parse_html`. -/
def egovSelectors : List String :=
  ["table.board-list tbody tr", "table.bbs-list tbody tr",
   ".boardList tbody tr", "table tbody tr"]

/-- The ordered selector candidates of `XeBoardParser::parse_html`. -/
def xeSelectors : List String :=
  ["table.bd_lst tbody tr", "table.bd_tb_lst tbody tr",
   "table.bd_tb tbody tr"]

/-- The shared selector-fallback loop of both `parse_html` functions: a
candidate matching no rows is skipped; a candidate whose rows produce no
notices (the accumulator stays empty) lets the loop move on; the loop
stops at the first candidate whose rows produce at least one notice. -/
def selLoop (process : HtmlRow → Option RawNotice)
    (doc : String → List HtmlRow) : List String → List RawNotice
  | [] => []
  | s :: rest =>
    let rows := doc s
    if rows.isEmpty then selLoop process doc rest
    else
      let ns := rows.filterMap process
      if ns.isEmpty then selLoop process doc rest else ns

/-- `EgovParser::parse_html` over the abstract document. -/
def EgovParser.parse_html (p : EgovParser) (doc : String → List HtmlRow) :
    List RawNotice :=
  selLoop (egovProcessRow p) doc egovSelectors

/-- `XeBoardParser::parse_html` over the abstract document. -/
def XeBoardParser.parse_html (p : XeBoardParser)
    (doc : String → List HtmlRow) : List RawNotice :=
  selLoop (xeProcessRow p) doc xeSelectors

/-- The claim's reading of the fallback: commit to the **first selector
that matches at least one row**, whatever its rows produce. -/
def selFirstRows (process : HtmlRow → Option RawNotice)
    (doc : String → List HtmlRow) : List String → List RawNotice
  | [] => []
  | s :: rest =>
    if (doc s).isEmpty then selFirstRows process doc rest
    else (doc s).filterMap process

/-- One selector candidate's yield: `none` unless its rows produce at
least one raw notice. -/
def selProbe (process : HtmlRow → Option RawNotice)
    (doc : String → List HtmlRow) (s : String) :
    Option (List RawNotice) :=
  if ((doc s).filterMap process).isEmpty then none
  else some ((doc s).filterMap process)

/-- The amended reading: the first selector whose rows produce at least
one raw notice wins; selectors whose rows all fail to produce a notice do
not stop the fallback. -/
def selFirstYield (process : HtmlRow → Option RawNotice)
    (doc : String → List HtmlRow) (sels : List String) : List RawNotice :=
  (sels.findSome? (selProbe process doc)).getD []

/-! ## Helper lemmas -/

/-- `find?` through a map that never changes whether the predicate
holds. -/
theorem find?_map_stable {α : Type} (p : α → Bool) (g : α → α)
    (hg : ∀ a, p (g a) = p a) (l : List α) :
    (l.map g).find? p = (l.find? p).map g := by
  induction l with
  | nil => rfl
  | cons a t ih =>
    by_cases h : p a = true
    · rw [List.map_cons, List.find?_cons_of_pos t h,
        List.find?_cons_of_pos _ (by rw [hg]; exact h)]
      rfl
    · rw [List.map_cons, List.find?_cons_of_neg t h,
        List.find?_cons_of_neg _ (by rw [hg]; exact h), ih]

/-- `classifyGo` is "first rule that fires, else general". -/
theorem classifyGo_eq_find (t : List Char)
    (rs : List (List String × Category)) :
    classifyGo t rs =
      ((rs.find? (ruleFires t)).map Prod.snd).getD Category.general := by
  induction rs with
  | nil => rfl
  | cons r rest ih =>
    by_cases h : ruleFires t r = true
    · rw [List.find?_cons_of_pos rest h]
      simp [classifyGo, h]
    · rw [List.find?_cons_of_neg rest h]
      simp only [classifyGo]
      rw [if_neg (by simpa using h)]
      exact ih

/-! ## The claims -/

/-- C4: for every title string, `classify` lower-cases the title and
returns the category of the first rule — in the fixed order academic,
scholarship, recruit, contest, event — whose keyword set has a member
occurring as a substring, defaulting to `general` when no rule matches;
in particular "교내장학금 신청 모집" classifies as scholarship, not
contest. -/
theorem classify_first_rule :
    (∀ title : String,
      classify title =
        ((classifyRules.find?
            (ruleFires (lowerL title.data))).map Prod.snd).getD
          Category.general) ∧
    classifyRules.map Prod.snd =
      [Category.academic, Category.scholarship, Category.recruit,
       Category.contest, Category.event] ∧
    classify "교내장학금 신청 모집" = Category.scholarship ∧
    classify "캠퍼스 도로 보수공사 안내" = Category.general := by
  refine ⟨fun title => classifyGo_eq_find _ _, by decide, by decide, by decide⟩

/-- C9 (counterexample): `extract_deadline` is not independent of the
system time — the reference year is read from the local clock, and the
bare month-day grammar resolves the same title to different dates in
different years. -/
theorem extract_deadline_clock_dependent :
    extract_deadline "2.8까지".data 2026 =
      some (some ⟨2026, 2, 8⟩) ∧
    extract_deadline "2.8까지".data 2027 =
      some (some ⟨2027, 2, 8⟩) ∧
    extract_deadline "2.8까지".data 2026 ≠
      extract_deadline "2.8까지".data 2027 := by
  refine ⟨by decide, by decide, by decide⟩

/-- C9 (amended): `extract_deadline` reads the external state only
through the year component of the local time: two calls with the same
title whose clocks agree on the year return the same optional date, even
if every other clock component differs. -/
theorem extract_deadline_year_determined (title : List Char)
    (n1 n2 : LocalTime) (h : n1.year = n2.year) :
    extract_deadline_at title n1 = extract_deadline_at title n2 := by
  unfold extract_deadline_at
  rw [h]

/-- Witness for C9 (amended): two clocks six months apart in the same
year give the same extraction result. -/
theorem extract_deadline_year_determined_witness :
    (LocalTime.mk 2026 2 14 9 30 0).year =
      (LocalTime.mk 2026 7 1 23 59 59).year ∧
    extract_deadline_at "장학금 신청 (~2026.02.14까지)".data
        (LocalTime.mk 2026 2 14 9 30 0) =
      extract_deadline_at "장학금 신청 (~2026.02.14까지)".data
        (LocalTime.mk 2026 7 1 23 59 59) :=
  ⟨rfl, extract_deadline_year_determined _ _ _ rfl⟩

/-- C10: the claim is right and the code is wrong — `extract_deadline`
is not total.  On a title whose 40-byte look-behind from the keyword
"까지" starts inside a multi-byte character (here: fourteen three-byte
Hangul syllables before the keyword, so the slice start lands at byte 2,
inside the first syllable), the Rust byte slice
`&title[start..pos]` aborts; in the model the function returns the
`none` that stands for that abort. -/
theorem deadline_slice_abort :
    findSubByte "가가가가가가가가가가가가가가까지".data "까지".data =
      some 42 ∧
    sliceBytes "가가가가가가가가가가가가가가까지".data 2 42 = none ∧
    extract_deadline "가가가가가가가가가가가가가가까지".data 2026 =
      none := by
  refine ⟨by decide, by decide, by decide⟩

/-! ### Crawl-state lemmas (for C7 and C8) -/

theorem increment_error_fst (db : DbState) (key now : String) :
    (increment_error db key now).1 = errCount db key + 1 := by
  unfold increment_error errCount
  cases db.crawlState.find? (fun r => r.source_key = key) <;> rfl

theorem errCount_increment (db : DbState) (key now : String) :
    errCount (increment_error db key now).2 key = errCount db key + 1 := by
  unfold increment_error errCount
  cases h : db.crawlState.find? (fun r => decide (r.source_key = key)) with
  | none =>
    simp only [List.find?_append, h, Option.none_or]
    simp [List.find?]
  | some r =>
    have hp := List.find?_some h
    rw [find?_map_stable _ _ (fun a => by by_cases ha : a.source_key = key <;>
      simp [ha]) db.crawlState, h]
    simp only [Option.map_some]
    simp only [decide_eq_true_eq] at hp
    simp [hp]

theorem errCount_update (db : DbState) (key : String)
    (lastId : Option String) (now : String) :
    errCount (update_crawl_state db key lastId now) key = 0 := by
  unfold update_crawl_state errCount
  by_cases hany :
      db.crawlState.any (fun r => decide (r.source_key = key)) = true
  · rw [if_pos hany]
    rw [show (({ db with crawlState := db.crawlState.map (fun r =>
        if r.source_key = key then
          { r with last_crawled := some now,
                   last_notice_id := lastId.orElse (fun _ => r.last_notice_id),
                   error_count := 0 }
        else r) } : DbState)).crawlState = db.crawlState.map (fun r =>
        if r.source_key = key then
          { r with last_crawled := some now,
                   last_notice_id := lastId.orElse (fun _ => r.last_notice_id),
                   error_count := 0 }
        else r) from rfl]
    rw [find?_map_stable _ _ (fun a => by by_cases ha : a.source_key = key <;>
      simp [ha]) db.crawlState]
    rcases List.any_eq_true.mp hany with ⟨r, hr, hp⟩
    cases hfind : db.crawlState.find? (fun r => decide (r.source_key = key)) with
    | none => exact absurd (List.find?_eq_none.mp hfind r hr) (by simp [hp])
    | some s =>
      have hs := List.find?_some hfind
      simp only [decide_eq_true_eq] at hs
      simp [hs]
  · rw [if_neg hany]
    have hany' : db.crawlState.any
        (fun r => decide (r.source_key = key)) = false :=
      Bool.eq_false_iff.mpr hany
    have hnone : db.crawlState.find? (fun r => decide (r.source_key = key)) =
        none :=
      List.find?_eq_none.mpr (List.any_eq_false.mp hany')
    rw [List.find?_append, hnone, Option.none_or]
    simp [List.find?]

/-- C7: from a clean error counter, three consecutive `increment_error`
calls for a source return 1, 2, 3; and after any success
(`update_crawl_state`), the next `increment_error` call returns 1. -/
theorem error_counter_behaviour (db : DbState) (key : String)
    (n1 n2 n3 : String) (h : errCount db key = 0) :
    (increment_error db key n1).1 = 1 ∧
    (increment_error (increment_error db key n1).2 key n2).1 = 2 ∧
    (increment_error
      (increment_error (increment_error db key n1).2 key n2).2 key n3).1 =
      3 ∧
    ∀ (db2 : DbState) (lastId : Option String) (n4 n5 : String),
      (increment_error (update_crawl_state db2 key lastId n4) key n5).1 =
        1 := by
  have e1 : errCount (increment_error db key n1).2 key = 1 := by
    rw [errCount_increment, h]
  have e2 : errCount (increment_error (increment_error db key n1).2 key
      n2).2 key = 2 := by
    rw [errCount_increment, e1]
  refine ⟨?_, ?_, ?_, ?_⟩
  · rw [increment_error_fst, h]
  · rw [increment_error_fst, e1]
  · rw [increment_error_fst, e2]
  · intro db2 lastId n4 n5
    rw [increment_error_fst, errCount_update]

/-- Witness for C7 at a concrete store whose counter is clean. -/
theorem error_counter_behaviour_witness :
    errCount DbState.empty "cbnu_main" = 0 ∧
    ((increment_error DbState.empty "cbnu_main" "t1").1 = 1 ∧
     (increment_error (increment_error DbState.empty "cbnu_main" "t1").2
        "cbnu_main" "t2").1 = 2 ∧
     (increment_error (increment_error
        (increment_error DbState.empty "cbnu_main" "t1").2 "cbnu_main"
        "t2").2 "cbnu_main" "t3").1 = 3 ∧
     ∀ (db2 : DbState) (lastId : Option String) (n4 n5 : String),
       (increment_error (update_crawl_state db2 "cbnu_main" lastId n4)
          "cbnu_main" n5).1 = 1) :=
  ⟨by decide,
   error_counter_behaviour DbState.empty "cbnu_main" "t1" "t2" "t3"
     (by decide)⟩

/-- C8 (counterexample): with a notifier configured, six consecutive
failing cycles for one source from a clean store raise the operator
alert in the fifth cycle — when the counter reaches the threshold 5 —
**and again** in the sixth failing cycle, with no intervening success
(the code alerts whenever `err_count >= 5`, not only on the cycle that
reaches 5). -/
theorem alert_reemission_counterexample :
    (runCycles "src" "t" true DbState.empty
        (List.replicate 6 CrawlOutcome.failure)).2 =
      [false, false, false, false, true, true] ∧
    errCount (runCycles "src" "t" true DbState.empty
        (List.replicate 6 CrawlOutcome.failure)).1 "src" = 6 := by
  refine ⟨by decide, by decide⟩

/-- C8 (amended): in every failing cycle the alert is emitted exactly
when the new consecutive-error count is **at least** the threshold 5
(and a notifier is configured) — so it first fires in the cycle that
reaches 5 and keeps firing in every later failing cycle; any success
resets the counter, after which alerts stop until the counter climbs
back to 5. -/
theorem alert_threshold_behaviour (key now : String) (np : Bool)
    (db : DbState) (outcomes : List CrawlOutcome) :
    (runCycles key now np db outcomes).2 =
      errAlerts np (errCount db key) outcomes := by
  induction outcomes generalizing db with
  | nil => rfl
  | cons o os ih =>
    cases o with
    | success ns =>
      simp only [runCycles, do_crawl_source, errAlerts]
      rw [ih, errCount_update]
    | failure =>
      simp only [runCycles, do_crawl_source, errAlerts]
      rw [ih, errCount_increment, increment_error_fst]

/-! ### Dedup-insert lemmas (for C1) -/

/-- Seeding `crawl_state` leaves it unchanged when the row exists. -/
theorem seedCrawl_of_any (cs : List CrawlStateRow) (key now : String)
    (h : cs.any (fun r => decide (r.source_key = key)) = true) :
    seedCrawl cs key now = cs := by
  unfold seedCrawl
  rw [if_pos h]

/-- After seeding, the source's `crawl_state` row exists. -/
theorem seedCrawl_any (cs : List CrawlStateRow) (key now : String) :
    (seedCrawl cs key now).any (fun r => decide (r.source_key = key)) =
      true := by
  unfold seedCrawl
  by_cases h : cs.any (fun r => decide (r.source_key = key)) = true
  · rw [if_pos h]; exact h
  · rw [if_neg h]
    simp [List.any_append]

/-- After `insert_if_new`, the dedup key is present. -/
theorem insert_hasNotice (db : DbState) (sk : String) (n : RawNotice)
    (now : String) :
    hasNotice (insert_if_new db sk n now).2 sk n.notice_id = true := by
  unfold insert_if_new
  by_cases h1 : hasNotice db sk n.notice_id = true
  · rw [if_pos h1]
    exact h1
  · rw [if_neg h1]
    show (db.notices ++ [_]).any _ = true
    simp [List.any_append]

/-- After `insert_if_new`, the source's `crawl_state` row exists. -/
theorem insert_crawlSeed (db : DbState) (sk : String) (n : RawNotice)
    (now : String) :
    (insert_if_new db sk n now).2.crawlState.any
      (fun r => decide (r.source_key = sk)) = true := by
  unfold insert_if_new
  by_cases h1 : hasNotice db sk n.notice_id = true
  · rw [if_pos h1]
    exact seedCrawl_any db.crawlState sk now
  · rw [if_neg h1]
    exact seedCrawl_any db.crawlState sk now

/-- C1: when the `(source_key, notice_id)` pair is not yet stored,
`insert_if_new` returns `true`; the same call again returns `false` and
leaves the store — the inserted notice row with all its fields (title,
url, category, crawled_at, …) included — exactly as it was after the
first call. -/
theorem insert_if_new_idempotent (db : DbState) (sk : String)
    (n : RawNotice) (now1 now2 : String)
    (h : hasNotice db sk n.notice_id = false) :
    (insert_if_new db sk n now1).1 = true ∧
    (insert_if_new (insert_if_new db sk n now1).2 sk n now2).1 = false ∧
    (insert_if_new (insert_if_new db sk n now1).2 sk n now2).2 =
      (insert_if_new db sk n now1).2 := by
  have hfalse : ¬ hasNotice db sk n.notice_id = true := by
    rw [h]; exact Bool.false_ne_true
  have h2 := insert_hasNotice db sk n now1
  have h3 := insert_crawlSeed db sk n now1
  refine ⟨?_, ?_, ?_⟩
  · rw [insert_if_new, if_neg hfalse]
  · rw [insert_if_new, if_pos h2]
  · rw [insert_if_new, if_pos h2, seedCrawl_of_any _ _ _ h3]

/-- Witness for C1: inserting one concrete raw notice twice into the
fresh store. -/
theorem insert_if_new_idempotent_witness :
    hasNotice DbState.empty "test" "123" = false ∧
    ((insert_if_new DbState.empty "test"
        ⟨"123", "테스트 공지", "https://example.com/123", some "테스트",
         some "2026-02-01", none, false⟩ "t1").1 = true ∧
     (insert_if_new (insert_if_new DbState.empty "test"
        ⟨"123", "테스트 공지", "https://example.com/123", some "테스트",
         some "2026-02-01", none, false⟩ "t1").2 "test"
        ⟨"123", "테스트 공지", "https://example.com/123", some "테스트",
         some "2026-02-01", none, false⟩ "t2").1 = false ∧
     (insert_if_new (insert_if_new DbState.empty "test"
        ⟨"123", "테스트 공지", "https://example.com/123", some "테스트",
         some "2026-02-01", none, false⟩ "t1").2 "test"
        ⟨"123", "테스트 공지", "https://example.com/123", some "테스트",
         some "2026-02-01", none, false⟩ "t2").2 =
       (insert_if_new DbState.empty "test"
        ⟨"123", "테스트 공지", "https://example.com/123", some "테스트",
         some "2026-02-01", none, false⟩ "t1").2) :=
  ⟨by decide,
   insert_if_new_idempotent DbState.empty "test"
     ⟨"123", "테스트 공지", "https://example.com/123", some "테스트",
      some "2026-02-01", none, false⟩ "t1" "t2" (by decide)⟩

/-! ### Deadline-window equivalence (for C5) -/

/-- The keyword loop coincides with its probe-factored spec reading. -/
theorem kwLoop_eq_specScan (title : List Char) (year : Int)
    (kws : List (List Char)) :
    kwLoop title year kws = specScan title year kws := by
  induction kws with
  | nil => rfl
  | cons kw rest ih =>
    rw [kwLoop, specScan, specKwProbe]
    cases h1 : findSubByte title kw with
    | none => simp only [h1]; exact ih
    | some pos =>
      simp only [h1]
      cases h2 : sliceBytes title (pos - 40) pos with
      | none => simp only [h2]
      | some region =>
        simp only [h2]
        cases h3 : windowDate year region with
        | none => simp only [h3]; exact ih
        | some d => simp only [h3]

/-- C5 (counterexample): the window preceding a deadline keyword spans
40 **bytes**, not 40 characters.  On a title whose full date sits 49
bytes but only 23 characters before "까지" (thirteen three-byte Hangul
syllables in between), the character-window reading of the spec finds
2026-02-14 next to the keyword, while the code's 40-byte window misses
it and the whole-title fallback returns the rightmost date
2026-03-01. -/
theorem deadline_window_chars_counterexample :
    extract_deadline_spec
        "2026.02.14가가가가가가가가가가가가가까지~2026.03.01".data 2026 =
      some ⟨2026, 2, 14⟩ ∧
    extract_deadline
        "2026.02.14가가가가가가가가가가가가가까지~2026.03.01".data 2026 =
      some (some ⟨2026, 3, 1⟩) ∧
    extract_deadline
        "2026.02.14가가가가가가가가가가가가가까지~2026.03.01".data 2026 ≠
      some (extract_deadline_spec
        "2026.02.14가가가가가가가가가가가가가까지~2026.03.01".data 2026) := by
  refine ⟨by decide, by decide, by decide⟩

/-- C5 (amended): `extract_deadline` scans the deadline keywords in
source order and, for each keyword present, searches only the 40-**byte**
window immediately preceding it (aborting if that byte offset splits a
character), preferring the full year-month-day grammar over the bare
month-day grammar and returning the first date found; if no keyword
window yields a date it scans the whole title — full-date grammar first,
then bare month-day — and returns the last match that parses to a valid
calendar date, and returns nothing when no token does.  The spec's three
examples hold (the bare month-day example at reference year 2026). -/
theorem extract_deadline_byte_window :
    (∀ (title : List Char) (year : Int),
      extract_deadline title year =
        extract_deadline_specBytes title year) ∧
    (∀ year : Int,
      extract_deadline "장학금 신청 (~2026.02.14까지)".data year =
        some (some ⟨2026, 2, 14⟩)) ∧
    extract_deadline "2.6(금)~2.8(일) 등록금 납부".data 2026 =
      some (some ⟨2026, 2, 8⟩) ∧
    (∀ year : Int,
      extract_deadline "장학금 신청 안내".data year = some none) := by
  refine ⟨?_, fun year => rfl, by decide, fun year => rfl⟩
  intro title year
  unfold extract_deadline extract_deadline_specBytes
  rw [kwLoop_eq_specScan]

/-! ### Selector-fallback equivalence (for C6) -/

/-- The selector loop commits to the first candidate whose rows yield at
least one notice. -/
theorem selLoop_eq_firstYield (process : HtmlRow → Option RawNotice)
    (doc : String → List HtmlRow) :
    ∀ sels, selLoop process doc sels = selFirstYield process doc sels
  | [] => rfl
  | s :: rest => by
    unfold selFirstYield
    rw [List.findSome?_cons]
    by_cases hrow : (doc s).isEmpty = true
    · have hfm : (doc s).filterMap process = [] := by
        rw [List.isEmpty_iff.mp hrow]; rfl
      have hp : selProbe process doc s = none := by
        unfold selProbe; rw [hfm]; rfl
      rw [hp]
      simp only [selLoop]
      rw [if_pos hrow, selLoop_eq_firstYield process doc rest]
      rfl
    · simp only [selLoop]
      rw [if_neg hrow]
      by_cases hfm : ((doc s).filterMap process).isEmpty = true
      · have hp : selProbe process doc s = none := by
          unfold selProbe; rw [if_pos hfm]
        rw [hp, if_pos hfm, selLoop_eq_firstYield process doc rest]
        rfl
      · have hp : selProbe process doc s =
            some ((doc s).filterMap process) := by
          unfold selProbe; rw [if_neg hfm]
        rw [hp, if_neg hfm]
        rfl

/-- The document for the C6 counterexample: the first selector candidate
matches one row (which the per-row loop skips for having a single cell),
the second matches a valid row. -/
def c6Doc : String → List HtmlRow := fun s =>
  if s = "table.board-list tbody tr" then [⟨[⟨[], "1", []⟩], []⟩]
  else if s = "table.bbs-list tbody tr" then
    [⟨[⟨[], "공지", []⟩, ⟨[], "", []⟩, ⟨[], "제목", []⟩,
      ⟨[], "2026-02-01", []⟩],
      [⟨"/www/selectBbsNttList.do?nttNo=42", "수강신청 안내"⟩]⟩]
  else []

/-- The parser configuration for the C6 counterexample. -/
def c6P : EgovParser :=
  ⟨"cbnu_main", "충북대 공지",
   "https://www.chungbuk.ac.kr/www/selectBbsNttList.do", "8", "813", "10"⟩

/-- C6 (counterexample): the first selector candidate matches one row,
yet the parser still consults the second candidate (and returns its
notice), because the first candidate's row is skipped and produces no
notice — the loop only stops at a candidate that yields a notice, not at
the first candidate that yields a row, so the claim's reading
(`selFirstRows`) disagrees with the code. -/
theorem selector_fallback_counterexample :
    (c6Doc "table.board-list tbody tr").length = 1 ∧
    EgovParser.parse_html c6P c6Doc =
      [⟨"42", "수강신청 안내",
        "https://www.chungbuk.ac.kr/www/selectBbsNttView.do?bbsNo=8&key=813&nttNo=42",
        none, none, none, true⟩] ∧
    selFirstRows (egovProcessRow c6P) c6Doc egovSelectors = [] ∧
    EgovParser.parse_html c6P c6Doc ≠
      selFirstRows (egovProcessRow c6P) c6Doc egovSelectors := by
  refine ⟨by decide, by decide, by decide, by decide⟩

/-- C6 (amended): in both dialect parsers the selector fallback stops at
the first candidate whose matched rows **produce at least one raw
notice**; a candidate that matches rows which all get skipped does not
stop the fallback, and a candidate matching no rows is likewise
skipped. -/
theorem selector_fallback_first_yield :
    (∀ (p : EgovParser) (doc : String → List HtmlRow),
      p.parse_html doc = selFirstYield (egovProcessRow p) doc egovSelectors) ∧
    (∀ (p : XeBoardParser) (doc : String → List HtmlRow),
      p.parse_html doc =
        selFirstYield (xeProcessRow p) doc xeSelectors) :=
  ⟨fun p doc => selLoop_eq_firstYield (egovProcessRow p) doc egovSelectors,
   fun p doc => selLoop_eq_firstYield (xeProcessRow p) doc xeSelectors⟩

/-! ### Delivery-log lemmas (for C2) -/

/-- After `log_dm`, `is_dm_sent` holds for the pair. -/
theorem is_dm_sent_log (db : DbState) (n : Nat) (u : Int) (t : String)
    (v : Option String) : is_dm_sent (log_dm db n u t v) n u = true := by
  unfold log_dm
  by_cases h : is_dm_sent db n u = true
  · rw [if_pos h]; exact h
  · rw [if_neg h]
    show (db.dmLog ++ [_]).any _ = true
    simp [List.any_append]

/-- `log_dm` preserves every existing delivery-log fact. -/
theorem is_dm_sent_log_mono (db : DbState) (n : Nat) (u : Int) (t : String)
    (v : Option String) (n' : Nat) (u' : Int)
    (h : is_dm_sent db n' u' = true) :
    is_dm_sent (log_dm db n u t v) n' u' = true := by
  unfold log_dm
  by_cases hg : is_dm_sent db n u = true
  · rw [if_pos hg]; exact h
  · rw [if_neg hg]
    show (db.dmLog ++ [_]).any _ = true
    rw [List.any_append]
    rw [show db.dmLog.any (fun r =>
        decide (r.notice_id = n' ∧ r.telegram_id = u')) = true from h]
    rfl

/-- `deactivate_user` does not touch the delivery log. -/
theorem is_dm_sent_deactivate (db : DbState) (x : Int) (n : Nat)
    (u : Int) : is_dm_sent (deactivate_user db x) n u = is_dm_sent db n u :=
  rfl

/-- The inner delivery loop never attempts an already-logged pair, and
keeps it logged. -/
theorem processMatches_skip (send : Int → Nat → SendResult)
    (notice : NoticeRow) (n : Nat) (u : Int) :
    ∀ (ms : List DmMatch) (db : DbState) (sent : Nat)
      (att : List (Nat × Int)),
      is_dm_sent db n u = true → (n, u) ∉ att →
      is_dm_sent (processMatches send notice ms db sent att).db n u =
        true ∧
      (n, u) ∉ (processMatches send notice ms db sent att).attempts
  | [], _, _, _, hlog, hatt => ⟨hlog, hatt⟩
  | m :: ms, db, sent, att, hlog, hatt => by
    rw [processMatches]
    by_cases hskip : is_dm_sent db notice.id m.telegram_id = true
    · rw [if_pos hskip]
      exact processMatches_skip send notice n u ms db sent att hlog hatt
    · rw [if_neg hskip]
      have hatt' : (n, u) ∉ att ++ [(notice.id, m.telegram_id)] := by
        intro hmem
        rcases List.mem_append.mp hmem with h | h
        · exact hatt h
        · have he := List.mem_singleton.mp h
          simp only [Prod.mk.injEq] at he
          rcases he with ⟨h1', h2'⟩
          subst h1'; subst h2'
          exact hskip hlog
      cases hsend : send m.telegram_id notice.id with
      | ok =>
        exact processMatches_skip send notice n u ms _ _ _
          (is_dm_sent_log_mono _ _ _ _ _ _ _ hlog) hatt'
      | errTransient =>
        exact processMatches_skip send notice n u ms _ _ _ hlog hatt'
      | errForbidden =>
        exact processMatches_skip send notice n u ms _ _ _
          ((is_dm_sent_deactivate db m.telegram_id n u).symm ▸ hlog) hatt'

/-- The cycle never attempts an already-logged pair, and keeps it
logged. -/
theorem processNotices_skip (send : Int → Nat → SendResult)
    (kwSubs : List (Int × String)) (n : Nat) (u : Int) :
    ∀ (ns : List NoticeRow) (db : DbState) (sent : Nat)
      (att : List (Nat × Int)),
      is_dm_sent db n u = true → (n, u) ∉ att →
      is_dm_sent (processNotices send kwSubs ns db sent att).db n u =
        true ∧
      (n, u) ∉ (processNotices send kwSubs ns db sent att).attempts
  | [], _, _, _, hlog, hatt => ⟨hlog, hatt⟩
  | nt :: ns, db, sent, att, hlog, hatt => by
    rw [processNotices]
    have h1 := processMatches_skip send nt n u
      (find_matches db nt kwSubs) db sent att hlog hatt
    exact processNotices_skip send kwSubs n u ns _ _ _ h1.1 h1.2

/-- Every pair attempted with a successful send ends up logged (inner
loop). -/
theorem processMatches_okLogged (send : Int → Nat → SendResult)
    (notice : NoticeRow) :
    ∀ (ms : List DmMatch) (db : DbState) (sent : Nat)
      (att : List (Nat × Int)),
      (∀ (n : Nat) (u : Int), (n, u) ∈ att → send u n = SendResult.ok →
        is_dm_sent db n u = true) →
      ∀ (n : Nat) (u : Int),
        (n, u) ∈ (processMatches send notice ms db sent att).attempts →
        send u n = SendResult.ok →
        is_dm_sent (processMatches send notice ms db sent att).db n u =
          true
  | [], _, _, _, hinv => hinv
  | m :: ms, db, sent, att, hinv => by
    rw [processMatches]
    by_cases hskip : is_dm_sent db notice.id m.telegram_id = true
    · rw [if_pos hskip]
      exact processMatches_okLogged send notice ms db sent att hinv
    · rw [if_neg hskip]
      cases hsend : send m.telegram_id notice.id with
      | ok =>
        refine processMatches_okLogged send notice ms _ _ _ ?_
        intro n u hmem hok
        rcases List.mem_append.mp hmem with h | h
        · exact is_dm_sent_log_mono _ _ _ _ _ _ _ (hinv n u h hok)
        · have he := List.mem_singleton.mp h
          simp only [Prod.mk.injEq] at he
          rw [he.1, he.2]
          exact is_dm_sent_log _ _ _ _ _
      | errTransient =>
        refine processMatches_okLogged send notice ms _ _ _ ?_
        intro n u hmem hok
        rcases List.mem_append.mp hmem with h | h
        · exact hinv n u h hok
        · have he := List.mem_singleton.mp h
          simp only [Prod.mk.injEq] at he
          rw [he.1, he.2] at hok
          rw [hsend] at hok
          exact absurd hok (by simp)
      | errForbidden =>
        refine processMatches_okLogged send notice ms _ _ _ ?_
        intro n u hmem hok
        rcases List.mem_append.mp hmem with h | h
        · exact hinv n u h hok
        · have he := List.mem_singleton.mp h
          simp only [Prod.mk.injEq] at he
          rw [he.1, he.2] at hok
          rw [hsend] at hok
          exact absurd hok (by simp)

/-- Every pair attempted with a successful send ends up logged
(cycle). -/
theorem processNotices_okLogged (send : Int → Nat → SendResult)
    (kwSubs : List (Int × String)) :
    ∀ (ns : List NoticeRow) (db : DbState) (sent : Nat)
      (att : List (Nat × Int)),
      (∀ (n : Nat) (u : Int), (n, u) ∈ att → send u n = SendResult.ok →
        is_dm_sent db n u = true) →
      ∀ (n : Nat) (u : Int),
        (n, u) ∈ (processNotices send kwSubs ns db sent att).attempts →
        send u n = SendResult.ok →
        is_dm_sent (processNotices send kwSubs ns db sent att).db n u =
          true
  | [], _, _, _, hinv => hinv
  | nt :: ns, db, sent, att, hinv => by
    rw [processNotices]
    exact processNotices_okLogged send kwSubs ns _ _ _
      (processMatches_okLogged send nt (find_matches db nt kwSubs)
        db sent att hinv)

/-- C2: `log_dm` followed by `is_dm_sent` returns `true`; a second
`log_dm` for the same pair changes nothing; the engine never attempts a
pair that already has a delivery-log row; and a pair delivered
successfully in one cycle is never attempted in any later cycle (while
the notice is still served by the recent window), because the log entry
written on success makes the skip check fire. -/
theorem dm_delivery_idempotent :
    (∀ (db : DbState) (n : Nat) (u : Int) (t : String)
       (v : Option String), is_dm_sent (log_dm db n u t v) n u = true) ∧
    (∀ (db : DbState) (n : Nat) (u : Int) (t : String) (v : Option String)
       (t2 : String) (v2 : Option String),
      log_dm (log_dm db n u t v) n u t2 v2 = log_dm db n u t v) ∧
    (∀ (db : DbState) (send : Int → Nat → SendResult)
       (notices : List NoticeRow) (n : Nat) (u : Int),
      is_dm_sent db n u = true →
      (n, u) ∉ (dmProcess db send notices).attempts) ∧
    (∀ (db : DbState) (send : Int → Nat → SendResult)
       (notices : List NoticeRow) (send2 : Int → Nat → SendResult)
       (notices2 : List NoticeRow) (n : Nat) (u : Int),
      send u n = SendResult.ok →
      (n, u) ∈ (dmProcess db send notices).attempts →
      (n, u) ∉
        (dmProcess (dmProcess db send notices).db send2
          notices2).attempts) := by
  refine ⟨is_dm_sent_log, ?_, ?_, ?_⟩
  · intro db n u t v t2 v2
    conv_lhs => rw [log_dm]
    rw [if_pos (is_dm_sent_log db n u t v)]
  · intro db send notices n u hlog
    exact (processNotices_skip send (get_all_keyword_subs db) n u notices
      db 0 [] hlog (List.not_mem_nil _)).2
  · intro db send notices send2 notices2 n u hok hmem
    have hlogged : is_dm_sent (dmProcess db send notices).db n u = true :=
      processNotices_okLogged send (get_all_keyword_subs db) notices db 0 []
        (fun n u hmem _ => absurd hmem (List.not_mem_nil _)) n u hmem hok
    exact (processNotices_skip send2
      (get_all_keyword_subs (dmProcess db send notices).db) n u notices2
      (dmProcess db send notices).db 0 [] hlogged (List.not_mem_nil _)).2

/-- Witness for C2: user 100 already has a delivery-log row for notice
7; the engine, run over a notice whose title matches the user's keyword
subscription, does not attempt the pair. -/
theorem dm_delivery_idempotent_witness :
    is_dm_sent
      ⟨[], 1, [], [⟨100, none, none, true⟩], [⟨100, "장학금"⟩], [],
       [⟨7, 100, "keyword", some "장학금"⟩]⟩ 7 100 = true ∧
    (7, 100) ∉ (dmProcess
      ⟨[], 1, [], [⟨100, none, none, true⟩], [⟨100, "장학금"⟩], [],
       [⟨7, 100, "keyword", some "장학금"⟩]⟩
      (fun _ _ => SendResult.ok)
      [⟨7, "biz", "1", "장학금 공지", "https://e/1", none, "scholarship",
        none, none, "t", true⟩]).attempts :=
  ⟨by decide,
   dm_delivery_idempotent.2.2.1
     ⟨[], 1, [], [⟨100, none, none, true⟩], [⟨100, "장학금"⟩], [],
      [⟨7, 100, "keyword", some "장학금"⟩]⟩
     (fun _ _ => SendResult.ok)
     [⟨7, "biz", "1", "장학금 공지", "https://e/1", none, "scholarship",
       none, none, "t", true⟩] 7 100 (by decide)⟩

/-! ### Matching lemmas (for C3) -/

/-- The keyword pass grows the seen set by exactly the pushed users. -/
theorem kwPhase_seen (tl : List Char) :
    ∀ (subs : List (Int × String)) (seen : List Int),
      (kwPhase tl subs seen).1 =
        ((kwPhase tl subs seen).2.map DmMatch.telegram_id).reverse ++ seen
  | [], seen => rfl
  | (uid, kw) :: rest, seen => by
    simp only [kwPhase]
    by_cases hc : containsSub tl (lowerL kw.data) = true
    · rw [if_pos hc]
      by_cases hs : uid ∈ seen
      · rw [if_pos hs]
        exact kwPhase_seen tl rest seen
      · rw [if_neg hs]
        have ih := kwPhase_seen tl rest (uid :: seen)
        simp only [List.map_cons, List.reverse_cons, List.append_assoc,
          List.singleton_append]
        exact ih
    · rw [if_neg hc]
      exact kwPhase_seen tl rest seen

/-- Membership in the keyword pass's output: exactly the users not yet
seen whose lower-cased keyword occurs in the lower-cased title. -/
theorem kwPhase_mem (tl : List Char) :
    ∀ (subs : List (Int × String)) (seen : List Int) (u : Int),
      u ∈ (kwPhase tl subs seen).2.map DmMatch.telegram_id ↔
        u ∉ seen ∧ ∃ kw, (u, kw) ∈ subs ∧
          containsSub tl (lowerL kw.data) = true
  | [], seen, u => by simp [kwPhase]
  | (uid, kw0) :: rest, seen, u => by
    simp only [kwPhase]
    by_cases hc : containsSub tl (lowerL kw0.data) = true
    · rw [if_pos hc]
      by_cases hs : uid ∈ seen
      · rw [if_pos hs, kwPhase_mem tl rest seen u]
        simp only [List.mem_cons, Prod.mk.injEq]
        constructor
        · rintro ⟨hu, kw, h, hck⟩
          exact ⟨hu, kw, Or.inr h, hck⟩
        · rintro ⟨hu, kw, ⟨h1, _⟩ | h, hck⟩
          · exact absurd (h1 ▸ hs) hu
          · exact ⟨hu, kw, h, hck⟩
      · rw [if_neg hs]
        simp only [List.map_cons, List.mem_cons]
        rw [kwPhase_mem tl rest (uid :: seen) u]
        simp only [List.mem_cons, Prod.mk.injEq, not_or]
        constructor
        · rintro (he | ⟨⟨hne, hu⟩, kw, h, hck⟩)
          · subst he
            exact ⟨hs, kw0, Or.inl ⟨rfl, rfl⟩, hc⟩
          · exact ⟨hu, kw, Or.inr h, hck⟩
        · rintro ⟨hu, kw, ⟨h1, _⟩ | h, hck⟩
          · exact Or.inl h1
          · by_cases he : u = uid
            · exact Or.inl he
            · exact Or.inr ⟨⟨he, hu⟩, kw, h, hck⟩
    · rw [if_neg hc]
      rw [kwPhase_mem tl rest seen u]
      simp only [List.mem_cons, Prod.mk.injEq]
      constructor
      · rintro ⟨hu, kw, h, hck⟩
        exact ⟨hu, kw, Or.inr h, hck⟩
      · rintro ⟨hu, kw, ⟨h1, h2⟩ | h, hck⟩
        · subst h1
          subst h2
          exact absurd hck hc
        · exact ⟨hu, kw, h, hck⟩

/-- The keyword pass pushes each user at most once. -/
theorem kwPhase_nodup (tl : List Char) :
    ∀ (subs : List (Int × String)) (seen : List Int),
      ((kwPhase tl subs seen).2.map DmMatch.telegram_id).Nodup
  | [], _ => List.nodup_nil
  | (uid, kw0) :: rest, seen => by
    simp only [kwPhase]
    by_cases hc : containsSub tl (lowerL kw0.data) = true
    · rw [if_pos hc]
      by_cases hs : uid ∈ seen
      · rw [if_pos hs]
        exact kwPhase_nodup tl rest seen
      · rw [if_neg hs]
        simp only [List.map_cons, List.nodup_cons]
        refine ⟨?_, kwPhase_nodup tl rest (uid :: seen)⟩
        intro hmem
        exact ((kwPhase_mem tl rest (uid :: seen) uid).mp hmem).1
          (List.mem_cons_self _ _)
    · rw [if_neg hc]
      exact kwPhase_nodup tl rest seen

/-- Every match pushed by the keyword pass carries the `"keyword"`
reason. -/
theorem kwPhase_type (tl : List Char) :
    ∀ (subs : List (Int × String)) (seen : List Int) (m : DmMatch),
      m ∈ (kwPhase tl subs seen).2 → m.match_type = "keyword"
  | [], _, m, hm => absurd hm (List.not_mem_nil m)
  | (uid, kw0) :: rest, seen, m, hm => by
    simp only [kwPhase] at hm
    by_cases hc : containsSub tl (lowerL kw0.data) = true
    · rw [if_pos hc] at hm
      by_cases hs : uid ∈ seen
      · rw [if_pos hs] at hm
        exact kwPhase_type tl rest seen m hm
      · rw [if_neg hs] at hm
        rcases List.mem_cons.mp hm with he | hm
        · rw [he]
        · exact kwPhase_type tl rest (uid :: seen) m hm
    · rw [if_neg hc] at hm
      exact kwPhase_type tl rest seen m hm

/-- Membership in the source pass's output: exactly the subscribers not
yet seen. -/
theorem srcPhase_mem (skey : String) :
    ∀ (lst : List Int) (seen : List Int) (u : Int),
      u ∈ (srcPhase skey lst seen).2.map DmMatch.telegram_id ↔
        u ∉ seen ∧ u ∈ lst
  | [], seen, u => by simp [srcPhase]
  | uid :: rest, seen, u => by
    simp only [srcPhase]
    by_cases hs : uid ∈ seen
    · rw [if_pos hs, srcPhase_mem skey rest seen u]
      simp only [List.mem_cons]
      constructor
      · rintro ⟨hu, hl⟩
        exact ⟨hu, Or.inr hl⟩
      · rintro ⟨hu, he | hl⟩
        · exact absurd (he ▸ hs) hu
        · exact ⟨hu, hl⟩
    · rw [if_neg hs]
      simp only [List.map_cons, List.mem_cons]
      rw [srcPhase_mem skey rest (uid :: seen) u]
      simp only [List.mem_cons, not_or]
      constructor
      · rintro (he | ⟨⟨hne, hu⟩, hl⟩)
        · subst he
          exact ⟨hs, Or.inl rfl⟩
        · exact ⟨hu, Or.inr hl⟩
      · rintro ⟨hu, he | hl⟩
        · exact Or.inl he
        · by_cases he : u = uid
          · exact Or.inl he
          · exact Or.inr ⟨⟨he, hu⟩, hl⟩

/-- The source pass pushes each user at most once. -/
theorem srcPhase_nodup (skey : String) :
    ∀ (lst : List Int) (seen : List Int),
      ((srcPhase skey lst seen).2.map DmMatch.telegram_id).Nodup
  | [], _ => List.nodup_nil
  | uid :: rest, seen => by
    simp only [srcPhase]
    by_cases hs : uid ∈ seen
    · rw [if_pos hs]
      exact srcPhase_nodup skey rest seen
    · rw [if_neg hs]
      simp only [List.map_cons, List.nodup_cons]
      refine ⟨?_, srcPhase_nodup skey rest (uid :: seen)⟩
      intro hmem
      exact ((srcPhase_mem skey rest (uid :: seen) uid).mp hmem).1
        (List.mem_cons_self _ _)

/-- Every match pushed by the source pass carries the `"source"`
reason. -/
theorem srcPhase_type (skey : String) :
    ∀ (lst : List Int) (seen : List Int) (m : DmMatch),
      m ∈ (srcPhase skey lst seen).2 → m.match_type = "source"
  | [], _, m, hm => absurd hm (List.not_mem_nil m)
  | uid :: rest, seen, m, hm => by
    simp only [srcPhase] at hm
    by_cases hs : uid ∈ seen
    · rw [if_pos hs] at hm
      exact srcPhase_type skey rest seen m hm
    · rw [if_neg hs] at hm
      rcases List.mem_cons.mp hm with he | hm
      · rw [he]
      · exact srcPhase_type skey rest (uid :: seen) m hm

/-- Store for the C3 fan-out scenario: user 100 subscribes to the
keyword "장학금", user 200 to the source "biz"; both active. -/
def c3Db : DbState :=
  ⟨[], 1, [], [⟨100, none, none, true⟩, ⟨200, none, none, true⟩],
   [⟨100, "장학금"⟩], [⟨200, "biz"⟩], []⟩

/-- Store for the C3 double-match scenario: user 300 subscribes to both
the keyword and the source. -/
def c3DbBoth : DbState :=
  ⟨[], 1, [], [⟨300, none, none, true⟩], [⟨300, "장학금"⟩],
   [⟨300, "biz"⟩], []⟩

/-- The notice of the C3 scenarios: title matches the keyword, source is
"biz". -/
def c3Notice : NoticeRow :=
  ⟨7, "biz", "1", "장학금 공지", "https://e/1", none, "scholarship",
   none, none, "t", true⟩

/-- C3: the candidate recipient set of `find_matches` is exactly the
deduplicated union of keyword matches (case-insensitive substring of the
title) and active source subscribers; each user appears at most once;
a user with a keyword match is always attributed the `"keyword"` reason
(keyword matches are evaluated first); one keyword subscriber plus one
distinct source subscriber produce exactly two delivery attempts, and a
user matched by both ways produces exactly one, logged with the keyword
reason. -/
theorem find_matches_spec :
    (∀ (db : DbState) (notice : NoticeRow) (u : Int),
      u ∈ (find_matches db notice
          (get_all_keyword_subs db)).map DmMatch.telegram_id ↔
        ((∃ kw, (u, kw) ∈ get_all_keyword_subs db ∧
            containsSub (lowerL notice.title.data) (lowerL kw.data) =
              true) ∨
          u ∈ get_source_subscribers db notice.source_key)) ∧
    (∀ (db : DbState) (notice : NoticeRow),
      ((find_matches db notice
          (get_all_keyword_subs db)).map DmMatch.telegram_id).Nodup) ∧
    (∀ (db : DbState) (notice : NoticeRow) (m : DmMatch),
      (∃ kw, (m.telegram_id, kw) ∈ get_all_keyword_subs db ∧
          containsSub (lowerL notice.title.data) (lowerL kw.data) =
            true) →
      m ∈ find_matches db notice (get_all_keyword_subs db) →
      m.match_type = "keyword") ∧
    ((dmProcess c3Db (fun _ _ => SendResult.ok) [c3Notice]).attempts =
        [(7, 100), (7, 200)] ∧
      (dmProcess c3Db (fun _ _ => SendResult.ok) [c3Notice]).sent = 2) ∧
    ((dmProcess c3DbBoth (fun _ _ => SendResult.ok)
        [c3Notice]).attempts = [(7, 300)] ∧
      (dmProcess c3DbBoth (fun _ _ => SendResult.ok)
        [c3Notice]).db.dmLog = [⟨7, 300, "keyword", some "장학금"⟩]) := by
  refine ⟨?_, ?_, ?_, ⟨by decide, by decide⟩, ⟨by decide, by decide⟩⟩
  · intro db notice u
    simp only [find_matches, List.map_append, List.mem_append]
    rw [kwPhase_mem, srcPhase_mem, kwPhase_seen]
    simp only [List.append_nil, List.mem_reverse]
    rw [kwPhase_mem]
    simp only [List.not_mem_nil, not_false_iff, true_and]
    constructor
    · rintro (h | ⟨_, hs⟩)
      · exact Or.inl h
      · exact Or.inr hs
    · rintro (h | hs)
      · exact Or.inl h
      · by_cases hk : ∃ kw, (u, kw) ∈ get_all_keyword_subs db ∧
            containsSub (lowerL notice.title.data) (lowerL kw.data) = true
        · exact Or.inl hk
        · exact Or.inr ⟨hk, hs⟩
  · intro db notice
    simp only [find_matches, List.map_append]
    rw [List.nodup_append]
    refine ⟨kwPhase_nodup _ _ _, srcPhase_nodup _ _ _, ?_⟩
    intro a ha hb
    have h2 := (srcPhase_mem _ _ _ a).mp hb
    apply h2.1
    rw [kwPhase_seen]
    simpa only [List.append_nil, List.mem_reverse] using ha
  · intro db notice m hkwm hm
    simp only [find_matches] at hm
    rcases List.mem_append.mp hm with h | h
    · exact kwPhase_type _ _ _ _ h
    · exfalso
      have hmm : m.telegram_id ∈ ((srcPhase notice.source_key
          (get_source_subscribers db notice.source_key)
          (kwPhase (lowerL notice.title.data)
            (get_all_keyword_subs db) []).1).2.map DmMatch.telegram_id) :=
        List.mem_map.mpr ⟨m, h, rfl⟩
      have h2 := (srcPhase_mem _ _ _ _).mp hmm
      apply h2.1
      rw [kwPhase_seen]
      simp only [List.append_nil, List.mem_reverse]
      rw [kwPhase_mem]
      exact ⟨List.not_mem_nil _, hkwm⟩

/-- Witness for C3: in the double-match store, user 300's entry exists
and is attributed the keyword reason. -/
theorem find_matches_spec_witness :
    (∃ kw, ((300 : Int), kw) ∈ get_all_keyword_subs c3DbBoth ∧
        containsSub (lowerL c3Notice.title.data) (lowerL kw.data) =
          true) ∧
    (⟨300, "keyword", "장학금"⟩ : DmMatch) ∈
      find_matches c3DbBoth c3Notice (get_all_keyword_subs c3DbBoth) ∧
    (⟨300, "keyword", "장학금"⟩ : DmMatch).match_type = "keyword" :=
  ⟨⟨"장학금", by decide, by decide⟩, by decide,
   find_matches_spec.2.2.1 c3DbBoth c3Notice ⟨300, "keyword", "장학금"⟩
     ⟨"장학금", by decide, by decide⟩ (by decide)⟩

end CbnuNotice
